import Mathlib

/-!
Verification of the CMS Open Data ttbar analysis pipeline
(`analyses/cms-open-data-ttbar/ttbar_analysis_pipeline.py`).

Shallow embedding conventions:
* All numeric attributes (pt, eta, phi, mass, b-tag score, qgl score) are
  modelled as exact rationals (`ℚ`); the source computes in floating point,
  which the embedding idealises.
* The transcendental primitives the source obtains from numpy / the vector
  library (`np.sqrt`, and the `cos`/`sin`/`sinh` that convert
  (pt, eta, phi, mass) records to Cartesian four-vectors for `.mass` / `.pt`
  of sums) are uninterpreted parameters, bundled in `NumOps`.  No claim below
  depends on their values.
* Awkward-array jagged structure becomes `List`; per-event columnar operations
  become per-event functions mapped over the event list.
-/

/-- A physics object record as delivered in the event batches.  Jets carry all
six attributes; electrons and muons use only `pt`, `eta`, `phi`, `mass`
(their `btagCSVV2`/`qgl` fields are never read). -/
structure Particle where
  pt : ℚ
  eta : ℚ
  phi : ℚ
  mass : ℚ
  btagCSVV2 : ℚ
  qgl : ℚ
  deriving Repr, DecidableEq

instance : Inhabited Particle := ⟨⟨0, 0, 0, 0, 0, 0⟩⟩

/-- One event of a batch: its jet, electron and muon lists plus the event
number (`events.event`, used only for the even/odd model split). -/
structure Event where
  jets : List Particle
  electrons : List Particle
  muons : List Particle
  eventNum : ℕ
  deriving Repr

/-- `B_TAG_THRESHOLD = 0.5` from `TtbarAnalysis.process`, written in reduced
constructor form 1/2 (the library marks rational division irreducible, which
would block kernel evaluation of concrete instances). -/
def B_TAG_THRESHOLD : ℚ := ⟨1, 2, by decide, by decide⟩

/-! ### Event selection (`TtbarAnalysis.process`, lines 421-442)

The per-jet pT-variation factor (`events[pt_var]`, a scalar for
`pt_nominal`/`pt_scale_up` or a per-jet array for `pt_res_up`) is modelled as
a list `factors` aligned with the event's jets; the scalar case is
`List.replicate e.jets.length c`. -/

/-- `selected_electrons = events.Electron[(events.Electron.pt>25)]`. -/
def selectedElectrons (e : Event) : List Particle :=
  e.electrons.filter (fun l => decide (l.pt > 25))

/-- `selected_muons = events.Muon[(events.Muon.pt >25)]`. -/
def selectedMuons (e : Event) : List Particle :=
  e.muons.filter (fun l => decide (l.pt > 25))

/-- `jet_filter = (events.Jet.pt * events[pt_var]) > 25`;
`selected_jets = events.Jet[jet_filter]`. -/
def selectedJets (e : Event) (factors : List ℚ) : List Particle :=
  ((e.jets.zip factors).filter (fun jf => decide (jf.1.pt * jf.2 > 25))).map Prod.fst

/-- The overall selection mask of `process`:
exactly one lepton with pT > 25 (`ak.count` of selected electrons plus
selected muons equals 1), at least four selected jets (`ak.count` of the
product array `selected_jets.pt * pt_var_modifier` counts one entry per
selected jet), and at least one selected jet with b-tag score at or above
threshold. -/
def eventFilters (e : Event) (factors : List ℚ) : Bool :=
  ((selectedElectrons e).length + (selectedMuons e).length == 1)
  && (4 ≤ (selectedJets e factors).length)
  && (1 ≤ (selectedJets e factors).countP (fun j => decide (j.btagCSVV2 ≥ B_TAG_THRESHOLD)))

/-! ### Region routing (`TtbarAnalysis.process`, lines 444-461) -/

/-- `region_filter` for `"4j1b"`:
`ak.sum(selected_jets.btagCSVV2 >= B_TAG_THRESHOLD, axis=1) == 1`. -/
def region4j1bFilter (jets : List Particle) : Bool :=
  jets.countP (fun j => decide (j.btagCSVV2 ≥ B_TAG_THRESHOLD)) == 1

/-- `region_filter` for `"4j2b"`:
`ak.sum(selected_jets.btagCSVV2 > B_TAG_THRESHOLD, axis=1) >= 2`. -/
def region4j2bFilter (jets : List Particle) : Bool :=
  2 ≤ jets.countP (fun j => decide (j.btagCSVV2 > B_TAG_THRESHOLD))

/-- An event reaches the `"4j1b"` fill iff it passes the overall selection and
then the region filter (the region filter is applied to the already
event-filtered `selected_jets`). -/
def routed4j1b (e : Event) (factors : List ℚ) : Bool :=
  eventFilters e factors && region4j1bFilter (selectedJets e factors)

/-- An event reaches the `"4j2b"` fill iff it passes the overall selection and
then the region filter. -/
def routed4j2b (e : Event) (factors : List ℚ) : Bool :=
  eventFilters e factors && region4j2bFilter (selectedJets e factors)

/-! ### The `"4j1b"` fill (`TtbarAnalysis.process`, lines 446-458) -/

/-- The pair of values handed to `histogram.fill` for one event: the
`observable=` axis and the `ml_observable=` axis. -/
structure FillPair where
  obs : ℚ
  ml : ℚ
  deriving Repr, DecidableEq

/-- `observable = ak.sum(selected_jets_region.pt * pt_var_modifier, axis=-1)`:
HT, the scalar sum of (variation-scaled) jet pT over the region's selected
jets, followed by `ML_observable = observable`.  `factors` is aligned with
`jets` as in `selectedJets`. -/
def fill4j1b (jets : List Particle) (factors : List ℚ) : FillPair :=
  let observable := ((jets.zip factors).map (fun jf => jf.1.pt * jf.2)).sum
  { obs := observable, ml := observable }

/-! ### Numeric primitives for `get_features`

The feature computation calls `np.sqrt` and uses the vector library's
`.mass` / `.pt` on sums of (pt, eta, phi, mass) records, which goes through
Cartesian components `px = pt·cos φ`, `py = pt·sin φ`, `pz = pt·sinh η`,
`E = sqrt(m² + px² + py² + pz²)`.  These transcendental primitives are kept
uninterpreted. -/

/-- Uninterpreted numeric primitives supplied by numpy / the vector library. -/
structure NumOps where
  sqrt : ℚ → ℚ
  sin : ℚ → ℚ
  cos : ℚ → ℚ
  sinh : ℚ → ℚ

/-- A Cartesian four-vector. -/
structure P4 where
  px : ℚ
  py : ℚ
  pz : ℚ
  en : ℚ
  deriving Repr, DecidableEq

/-- Conversion of a (pt, eta, phi, mass) record to Cartesian components, as
the vector library does before adding four-vectors. -/
def toP4 (ops : NumOps) (x : Particle) : P4 :=
  let px := x.pt * ops.cos x.phi
  let py := x.pt * ops.sin x.phi
  let pz := x.pt * ops.sinh x.eta
  { px := px, py := py, pz := pz, en := ops.sqrt (x.mass^2 + px^2 + py^2 + pz^2) }

/-- Componentwise four-vector sum (`jets[...] + jets[...]`). -/
def addP4 (a b : P4) : P4 :=
  { px := a.px + b.px, py := a.py + b.py, pz := a.pz + b.pz, en := a.en + b.en }

/-- `.mass` of a four-vector: `sqrt(E² − px² − py² − pz²)`. -/
def invMass (ops : NumOps) (v : P4) : ℚ :=
  ops.sqrt (v.en^2 - v.px^2 - v.py^2 - v.pz^2)

/-- `.pt` of a four-vector: `sqrt(px² + py²)`. -/
def ptOfP4 (ops : NumOps) (v : P4) : ℚ :=
  ops.sqrt (v.px^2 + v.py^2)

/-! ### Permutation table

`utils.get_permutations_dict(MAX_N_JETS)` is built once at startup.  The
`utils` module is not part of this repository fragment, so the builder is
modelled from the spec; `get_features` itself is translated from the source
and is parametric in the table it receives. -/

/-- One permutation: an assignment of jet indices to the four roles
(hadronic-W-jet-1, hadronic-W-jet-2, hadronic-top-b-jet,
leptonic-top-b-jet), i.e. columns 0..3 of `perms[..., k]`. -/
structure Perm4 where
  w1 : ℕ
  w2 : ℕ
  bhad : ℕ
  blep : ℕ
  deriving Repr, DecidableEq

/-- The permutation dictionary as `get_features` consumes it: its set of keys
(represented by the largest key `maxKey = max(permutations_dict.keys())`)
and the list of permutations stored under each jet count. -/
structure PermDict where
  maxKey : ℕ
  table : ℕ → List Perm4

/-- Modelled from the spec: the candidate permutations for one jet count
`n` are "the complete list of ordered 4-tuples of distinct indices into the
available jets ... (no double-use of a jet across the four roles, but ...
every distinct ordered assignment is a candidate)". -/
def allPerms (n : ℕ) : List Perm4 :=
  (List.range n).flatMap (fun a =>
    (List.range n).flatMap (fun b =>
      (List.range n).flatMap (fun c =>
        (List.range n).filterMap (fun d =>
          if a ≠ b ∧ a ≠ c ∧ a ≠ d ∧ b ≠ c ∧ b ≠ d ∧ c ≠ d then
            some ⟨a, b, c, d⟩ else none))))

/-- Modelled from the spec: `utils.get_permutations_dict(N)` (not under
`src/`) maps every jet count 4..N to its complete candidate list; other jet
counts carry no entry (modelled as the empty list). -/
def get_permutations_dict (N : ℕ) : PermDict :=
  { maxKey := N, table := fun n => if 4 ≤ n ∧ n ≤ N then allPerms n else [] }

/-! ### `get_features` (source lines 170-266) -/

/-- `njet = ak.num(jets)` followed by
`njet[njet > max(permutations_dict.keys())] = max(permutations_dict.keys())`:
the per-event jet count, clamped to the table's largest key. -/
def njetClamped (pd : PermDict) (e : Event) : ℕ :=
  min e.jets.length pd.maxKey

/-- `perms = ak.Array([permutations_dict[n] for n in njet])`: the permutation
list looked up for one event. -/
def permsFor (pd : PermDict) (e : Event) : List Perm4 :=
  pd.table (njetClamped pd e)

/-- `leptons = ak.flatten(ak.concatenate((electrons, muons), axis=1), axis=-1)`:
the source flattens the per-event electron⧺muon lists into one flat array and
relies on numpy broadcasting against per-event jagged arrays, which is only
defined when every event holds exactly one lepton (guaranteed by the event
selection).  The embedding takes that unique lepton per event. -/
def leptonOf (e : Event) : Particle :=
  (e.electrons ++ e.muons).headD default

/-- The 28-column feature row for one (event, permutation) pair.  Each entry
is the column assignment `features[:, k] = ...` of the source, specialised to
one event (with jets `jets` and its single lepton `lep`) and one permutation
`p`; `j0`/`j1` are the two hadronic-W jets, `j2` the hadronic-top b-jet and
`j3` the leptonic-top b-jet.  Out-of-range indices (impossible for the real
table) read the default particle. -/
def featureRow (ops : NumOps) (jets : List Particle) (lep : Particle)
    (p : Perm4) : List ℚ :=
  let j0 := jets.getD p.w1 default
  let j1 := jets.getD p.w2 default
  let j2 := jets.getD p.bhad default
  let j3 := jets.getD p.blep default
  [ -- 0: delta R between top_lepton and lepton
    ops.sqrt ((lep.eta - j3.eta)^2 + (lep.phi - j3.phi)^2),
    -- 1: delta R between the two W
    ops.sqrt ((j0.eta - j1.eta)^2 + (j0.phi - j1.phi)^2),
    -- 2, 3: delta R between W and top_hadron
    ops.sqrt ((j0.eta - j2.eta)^2 + (j0.phi - j2.phi)^2),
    ops.sqrt ((j1.eta - j2.eta)^2 + (j1.phi - j2.phi)^2),
    -- 4: delta phi between top_lepton and lepton
    |lep.phi - j3.phi|,
    -- 5: delta phi between the two W
    |j0.phi - j1.phi|,
    -- 6, 7: delta phi between W and top_hadron
    |j0.phi - j2.phi|,
    |j1.phi - j2.phi|,
    -- 8: combined mass of top_lepton and lepton
    invMass ops (addP4 (toP4 ops lep) (toP4 ops j3)),
    -- 9: combined mass of W
    invMass ops (addP4 (toP4 ops j0) (toP4 ops j1)),
    -- 10: combined mass of W and top_hadron
    invMass ops (addP4 (addP4 (toP4 ops j0) (toP4 ops j1)) (toP4 ops j2)),
    -- 11: combined pT of W and top_hadron
    ptOfP4 ops (addP4 (addP4 (toP4 ops j0) (toP4 ops j1)) (toP4 ops j2)),
    -- 12-15: pt of every jet
    j0.pt, j1.pt, j2.pt, j3.pt,
    -- 16-19: mass of every jet
    j0.mass, j1.mass, j2.mass, j3.mass,
    -- 20-23: btagCSVV2 of every jet
    j0.btagCSVV2, j1.btagCSVV2, j2.btagCSVV2, j3.btagCSVV2,
    -- 24-27: qgl of every jet
    j0.qgl, j1.qgl, j2.qgl, j3.qgl ]

/-- The block of feature rows one event contributes: one row per entry of its
permutation list, in table order. -/
def eventRows (ops : NumOps) (pd : PermDict) (e : Event) : List (List ℚ) :=
  (permsFor pd e).map (featureRow ops e.jets (leptonOf e))

/-- `get_features(jets, electrons, muons, permutations_dict)`: the feature
matrix (one row per (event, permutation) pair, events outermost — every
column of the source is an `ak.flatten` of a jagged array with this same
structure, so the matrix is the event-major concatenation of the per-event
blocks) together with `perm_counts = ak.num(perms)`.  The source's final
`astype(np.float32)` cast is the identity in this exact-rational model. -/
def get_features (ops : NumOps) (events : List Event) (pd : PermDict) :
    List (List ℚ) × List ℕ :=
  (events.flatMap (eventRows ops pd), events.map (fun e => (permsFor pd e).length))

/-! ### Best-permutation picker (`TtbarAnalysis.process`, lines 517-520) -/

/-- `ak.argmax(results, axis=1)` for one event: the index of the first
occurrence of the maximum (`None` on an empty list).  The first element that
is ≥ every element of the list is exactly the first maximal element. -/
def argmaxIdx (xs : List ℚ) : Option ℕ :=
  match xs with
  | [] => none
  | _ :: _ => some (xs.findIdx (fun x => xs.all (fun y => decide (y ≤ x))))

/-- `ML_observable` for one event: the source unflattens `results` and
`features` by `perm_counts`, indexes each event's feature block by
`which_combination = ak.argmax(results, axis=1)` and reads column 10.
`rows` is the event's feature block and `scores` its classifier outputs. -/
def mlObservableOfEvent (rows : List (List ℚ)) (scores : List ℚ) : ℚ :=
  match argmaxIdx scores with
  | none => 0
  | some i => (rows.getD i []).getD 10 0

/-! ### Even/odd classifier routing (`TtbarAnalysis.process`, lines 426, 480,
507-515) -/

/-- `even = (events.event % 2 == 0)` (source line 426): the per-event parity
bit that steers rows to the even-trained or odd-trained model. -/
def evenOf (e : Event) : Bool := e.eventNum % 2 == 0

/-- `even_perm = np.repeat(even_region, perm_counts)`: the per-row parity
mask, repeating each event's `even = (events.event % 2 == 0)` bit once per
permutation row of that event. -/
def evenPerm (evens : List Bool) (counts : List ℕ) : List Bool :=
  (evens.zip counts).flatMap (fun bc => List.replicate bc.2 bc.1)

/-- Numpy boolean-mask selection `xs[mask]`: the elements at the positions
where the mask is `true`, in order. -/
def selectMask {α : Type} (mask : List Bool) (xs : List α) : List α :=
  (mask.zip xs).filterMap (fun p => if p.1 then some p.2 else none)

/-- Numpy boolean-mask assignment into a fresh `np.zeros` array:
`results[mask] = tvals; results[~mask] = fvals` consumes `tvals` in order at
the `true` positions and `fvals` in order at the `false` positions (a missing
value — impossible when the value lists have matching lengths — reads the
array's zero initialisation). -/
def scatterAssign : List Bool → List ℚ → List ℚ → List ℚ
  | [], _, _ => []
  | true :: m, tvals, fvals => tvals.headD 0 :: scatterAssign m tvals.tail fvals
  | false :: m, tvals, fvals => fvals.headD 0 :: scatterAssign m tvals fvals.tail

/-- The xgboost branch of `process`:
`results = np.zeros(features.shape[0])`;
`results[even_perm] = model_even.predict_proba(...)[:, 1]`;
`results[~even_perm] = model_odd.predict_proba(...)[:, 1]`.
The two models (composed with the `PowerTransformer` and the `[:, 1]` column
selection) are uninterpreted matrix-to-column functions `scoreEven`/
`scoreOdd`. -/
def bdtResults (mask : List Bool) (rows : List (List ℚ))
    (scoreEven scoreOdd : List (List ℚ) → List ℚ) : List ℚ :=
  scatterAssign mask (scoreEven (selectMask mask rows))
    (scoreOdd (selectMask (mask.map not) rows))

/-! ### The I/O-only method of `TtbarAnalysis` (source lines 329-372), here
called `only_do_io` -/

/-- The literal `2.7` (percent tier), written in reduced constructor form
27/10 (the library marks rational division irreducible, which would block
kernel evaluation of concrete instances). -/
def twoPointSeven : ℚ := ⟨27, 10, by decide, by decide⟩

/-- The branch list accumulated by the threshold cascade of `only_do_io`. -/
def branchesToRead (p : ℚ) : List String :=
  (if p ≥ twoPointSeven then
    ["Jet_pt", "Jet_eta", "Jet_phi", "Jet_btagCSVV2", "Jet_mass", "Muon_pt",
     "Electron_pt"] else [])
  ++ (if p ≥ 4 then
    ["Electron_phi", "Electron_eta", "Electron_mass", "Muon_phi", "Muon_eta",
     "Muon_mass", "Photon_pt", "Photon_eta", "Photon_mass", "Jet_jetId"] else [])
  ++ (if p ≥ 15 then
    ["Jet_nConstituents", "Jet_electronIdx1", "Jet_electronIdx2",
     "Jet_muonIdx1", "Jet_muonIdx2", "Jet_chHEF", "Jet_area", "Jet_puId",
     "Jet_qgl", "Jet_btagDeepB", "Jet_btagDeepCvB", "Jet_btagDeepCvL",
     "Jet_btagDeepFlavB", "Jet_btagDeepFlavCvB", "Jet_btagDeepFlavCvL",
     "Jet_btagDeepFlavQG", "Jet_chEmEF", "Jet_chFPV0EF", "Jet_muEF",
     "Jet_muonSubtrFactor", "Jet_neEmEF", "Jet_neHEF", "Jet_puIdDisc"] else [])
  ++ (if p ≥ 25 then
    ["GenPart_pt", "GenPart_eta", "GenPart_phi", "GenPart_mass",
     "GenPart_genPartIdxMother", "GenPart_pdgId", "GenPart_status",
     "GenPart_statusFlags"] else [])
  ++ (if p = 50 then
    ["Jet_rawFactor", "Jet_bRegCorr", "Jet_bRegRes", "Jet_cRegCorr",
     "Jet_cRegRes", "Jet_nElectrons", "Jet_nMuons", "GenJet_pt", "GenJet_eta",
     "GenJet_phi", "GenJet_mass", "Tau_pt", "Tau_eta", "Tau_mass", "Tau_phi",
     "Muon_dxy", "Muon_dxyErr", "Muon_dxybs", "Muon_dz", "Muon_dzErr",
     "Electron_dxy", "Electron_dxyErr", "Electron_dz", "Electron_dzErr",
     "Electron_eInvMinusPInv", "Electron_energyErr", "Electron_hoe",
     "Electron_ip3d", "Electron_jetPtRelv2", "Electron_jetRelIso",
     "Electron_miniPFRelIso_all", "Electron_miniPFRelIso_chg",
     "Electron_mvaFall17V2Iso", "Electron_mvaFall17V2noIso",
     "Electron_pfRelIso03_all", "Electron_pfRelIso03_chg", "Electron_r9",
     "Electron_scEtOverPt", "Electron_sieie", "Electron_sip3d",
     "Electron_mvaTTH", "Electron_charge", "Electron_cutBased",
     "Electron_jetIdx", "Electron_pdgId", "Electron_photonIdx",
     "Electron_tightCharge"] else [])

/-- The supported I/O-percentage tiers of the membership check
`self.io_file_percent not in [2.7, 4, 15, 25, 50]`. -/
def supportedIOPercents : List ℚ := [twoPointSeven, 4, 15, 25, 50]

/-- The value `only_do_io` returns on success: the branches it materialised
and the `{"hist": {}}` result (an empty histogram, modelled as an empty
list of weighted bins). -/
structure IOOut where
  branchesRead : List String
  hist : List ℚ
  deriving Repr, DecidableEq

/-- The I/O-only method (`only_do_io`): builds the branch list by the threshold
cascade, raises `NotImplementedError` when the configured percentage is not
one of the supported tiers, otherwise materialises every listed branch (a
read with no effect on the result) and returns `{"hist": {}}`. -/
def only_do_io (io_file_percent : ℚ) : Except String IOOut :=
  let branches := branchesToRead io_file_percent
  if io_file_percent ∈ supportedIOPercents then
    Except.ok { branchesRead := branches, hist := [] }
  else
    Except.error "supported values for I/O percentage are 2.7, 4, 15, 25, 50"


/-- A concrete instantiation of the uninterpreted numeric primitives, used
only to evaluate witnesses on concrete inputs. -/
def idOps : NumOps := { sqrt := id, sin := id, cos := id, sinh := id }

/-! ## Shared helper lemmas -/

/-- `B_TAG_THRESHOLD` is the literal 0.5. -/
theorem B_TAG_THRESHOLD_eq_half : B_TAG_THRESHOLD = 1/2 := by
  norm_num [B_TAG_THRESHOLD, Rat.mk'_eq_divInt, Rat.divInt_eq_div]

/-- `twoPointSeven` is the literal 2.7. -/
theorem twoPointSeven_eq : twoPointSeven = 27/10 := by
  norm_num [twoPointSeven, Rat.mk'_eq_divInt, Rat.divInt_eq_div]

/-- Strictly-above-threshold tags are a subset of at-or-above-threshold tags,
so their count is never larger. -/
theorem countP_gt_le_countP_ge (jets : List Particle) :
    jets.countP (fun j => decide (j.btagCSVV2 > B_TAG_THRESHOLD)) ≤
      jets.countP (fun j => decide (j.btagCSVV2 ≥ B_TAG_THRESHOLD)) := by
  apply List.countP_mono_left
  intro x _ hx
  simp only [decide_eq_true_eq] at hx ⊢
  exact le_of_lt hx

/-- A nonempty rational list has a maximal element. -/
theorem exists_max_of_ne_nil (l : List ℚ) (h : l ≠ []) :
    ∃ m ∈ l, ∀ y ∈ l, y ≤ m := by
  induction l with
  | nil => exact absurd rfl h
  | cons a t ih =>
    cases t with
    | nil =>
      exact ⟨a, List.mem_cons_self a [], by
        intro y hy
        rcases List.mem_cons.mp hy with rfl | hy
        · exact le_rfl
        · cases hy⟩
    | cons b u =>
      obtain ⟨m, hm, hmax⟩ := ih (by simp)
      by_cases hma : m ≤ a
      · refine ⟨a, List.mem_cons_self _ _, ?_⟩
        intro y hy
        rcases List.mem_cons.mp hy with rfl | hy
        · exact le_rfl
        · exact le_trans (hmax y hy) hma
      · refine ⟨m, List.mem_cons_of_mem _ hm, ?_⟩
        intro y hy
        rcases List.mem_cons.mp hy with rfl | hy
        · exact le_of_not_le hma
        · exact hmax y hy

/-- `getD` at a successor index reads the tail. -/
theorem getD_succ_eq_tail_getD (t : List ℚ) (n : ℕ) :
    t.getD (n + 1) 0 = t.tail.getD n 0 := by
  cases t <;> rfl

/-- `headD` is `getD` at index 0. -/
theorem headD_eq_getD_zero (t : List ℚ) : t.headD 0 = t.getD 0 0 := by
  cases t <;> rfl

/-- `getD` inside a replicate block. -/
theorem getD_replicate_of_lt (b : Bool) (n k : ℕ) (d : Bool) (h : k < n) :
    (List.replicate n b).getD k d = b := by
  induction n generalizing k with
  | zero => omega
  | succ n ih =>
    cases k with
    | zero => rfl
    | succ k => exact ih k (by omega)

/-- `scatterAssign` produces exactly one entry per mask position. -/
theorem scatterAssign_length (mask : List Bool) (t f : List ℚ) :
    (scatterAssign mask t f).length = mask.length := by
  induction mask generalizing t f with
  | nil => rfl
  | cons b m ih =>
    by_cases hb : b = true <;> simp [scatterAssign, hb, ih]

/-- The value `scatterAssign` places at position `i`: drawn from the
`true`-stream at the rank of `i` among the `true` positions when the mask is
set, and from the `false`-stream at the rank among `false` positions
otherwise. -/
theorem scatterAssign_getD (mask : List Bool) (t f : List ℚ) (i : ℕ)
    (hi : i < mask.length) :
    (scatterAssign mask t f).getD i 0 =
      if mask.getD i false then t.getD ((mask.take i).countP id) 0
      else f.getD ((mask.take i).countP (fun b => !b)) 0 := by
  induction mask generalizing t f i with
  | nil => simp at hi
  | cons b m ih =>
    cases b with
    | true =>
      cases i with
      | zero =>
        simp only [scatterAssign, if_true, List.getD_cons_zero, List.take_zero,
          List.countP_nil]
        exact headD_eq_getD_zero t
      | succ i =>
        have hi' : i < m.length := by simpa using hi
        simp only [scatterAssign, if_true, List.getD_cons_succ, List.take_succ_cons,
          List.countP_cons]
        rw [ih t.tail f i hi']
        by_cases hmi : m.getD i false = true
        · simp only [hmi, if_true, id, if_pos rfl]
          exact (getD_succ_eq_tail_getD t _).symm
        · simp [hmi]
    | false =>
      cases i with
      | zero =>
        simp only [scatterAssign, if_false, List.getD_cons_zero, List.take_zero,
          List.countP_nil]
        exact headD_eq_getD_zero f
      | succ i =>
        have hi' : i < m.length := by simpa using hi
        simp only [scatterAssign, if_false, List.getD_cons_succ, List.take_succ_cons,
          List.countP_cons]
        rw [ih t f.tail i hi']
        by_cases hmi : m.getD i false = true
        · simp [hmi]
        · simp only [hmi, if_false, Bool.not_false, if_pos rfl]
          exact (getD_succ_eq_tail_getD f _).symm

/-- `np.repeat(even_region, perm_counts)` has one entry per feature row. -/
theorem evenPerm_length (evens : List Bool) (counts : List ℕ)
    (h : evens.length = counts.length) :
    (evenPerm evens counts).length = counts.sum := by
  induction evens generalizing counts with
  | nil =>
    cases counts with
    | nil => rfl
    | cons c cs => simp at h
  | cons b bs ih =>
    cases counts with
    | nil => simp at h
    | cons c cs =>
      simp only [evenPerm, List.zip_cons_cons, List.flatMap_cons, List.length_append,
        List.length_replicate, List.sum_cons]
      have := ih cs (by simpa using h)
      simp only [evenPerm] at this
      omega

/-- Inside the block of event `e`, every entry of
`np.repeat(even_region, perm_counts)` is that event's parity bit. -/
theorem evenPerm_getD_block (evens : List Bool) (counts : List ℕ)
    (h : evens.length = counts.length) (e k : ℕ)
    (he : e < counts.length) (hk : k < counts.getD e 0) :
    (evenPerm evens counts).getD ((counts.take e).sum + k) false =
      evens.getD e false := by
  induction e generalizing evens counts with
  | zero =>
    cases counts with
    | nil => simp at he
    | cons c cs =>
      cases evens with
      | nil => simp at h
      | cons b bs =>
        simp only [List.take_zero, List.sum_nil, Nat.zero_add, List.getD_cons_zero]
        simp only [List.getD_cons_zero] at hk
        simp only [evenPerm, List.zip_cons_cons, List.flatMap_cons]
        rw [List.getD_append _ _ _ _ (by simpa using hk)]
        exact getD_replicate_of_lt b c k false hk
  | succ e ih =>
    cases counts with
    | nil => simp at he
    | cons c cs =>
      cases evens with
      | nil => simp at h
      | cons b bs =>
        simp only [List.take_succ_cons, List.sum_cons, List.getD_cons_succ]
        simp only [evenPerm, List.zip_cons_cons, List.flatMap_cons]
        rw [Nat.add_assoc, List.getD_append_right _ _ _ _ (by simp)]
        simp only [List.length_replicate, Nat.add_sub_cancel_left]
        have := ih bs cs (by simpa using h) (by simpa using he)
          (by simpa using hk)
        simpa [evenPerm] using this

/-- A boolean mask and its negation split a list of matching length into two
parts whose sizes add up to the whole. -/
theorem selectMask_partition_length {α : Type} (mask : List Bool) (xs : List α)
    (h : mask.length = xs.length) :
    (selectMask mask xs).length + (selectMask (mask.map not) xs).length =
      xs.length := by
  induction mask generalizing xs with
  | nil =>
    cases xs with
    | nil => rfl
    | cons x t => simp at h
  | cons b m ih =>
    cases xs with
    | nil => simp at h
    | cons x t =>
      have := ih t (by simpa using h)
      by_cases hb : b = true <;>
        simp [selectMask, hb, List.zip_cons_cons] at * <;> omega

/-! ## Claims -/

/-- C1: For every event that passes the overall selection, the two region
masks are mutually exclusive: an event whose count of jets with b-tag score
≥ threshold equals exactly 1 (region "4j1b") never also has ≥ 2 jets with
b-tag score strictly above the threshold (region "4j2b"), so no event is
routed to both regions. -/
theorem claim_C1_regions_exclusive (jets : List Particle)
    (h : region4j1bFilter jets = true) :
    region4j2bFilter jets = false ∧
    ∀ (e : Event) (factors : List ℚ), selectedJets e factors = jets →
      routed4j2b e factors = false := by
  have h1 : jets.countP
      (fun j => decide (j.btagCSVV2 ≥ B_TAG_THRESHOLD)) = 1 := by
    simpa [region4j1bFilter] using h
  have h2 := countP_gt_le_countP_ge jets
  have h3 : region4j2bFilter jets = false := by
    simp only [region4j2bFilter, decide_eq_false_iff_not]
    omega
  refine ⟨h3, ?_⟩
  intro e factors hsel
  simp [routed4j2b, hsel, h3]

/-- Witness for C1 at a concrete one-jet list with b-tag score 3/5. -/
theorem claim_C1_regions_exclusive_witness :
    region4j1bFilter [⟨30, 0, 0, 0, ⟨3, 5, by decide, by decide⟩, 0⟩] = true ∧
    (region4j2bFilter [⟨30, 0, 0, 0, ⟨3, 5, by decide, by decide⟩, 0⟩] = false ∧
     ∀ (e : Event) (factors : List ℚ),
       selectedJets e factors = [⟨30, 0, 0, 0, ⟨3, 5, by decide, by decide⟩, 0⟩] →
       routed4j2b e factors = false) :=
  ⟨by decide, claim_C1_regions_exclusive _ (by decide)⟩

/-- C2: For every event batch, the overall selection mask holds for an event
iff it has exactly one lepton (electrons plus muons) with pT > 25 GeV, at
least four jets with (pT times the pT-variation factor) > 25 GeV, and at
least one selected jet with b-tag score ≥ 0.5; events failing any of these
conditions are excluded from both regions. -/
theorem claim_C2_selection_mask (e : Event) (factors : List ℚ) :
    (eventFilters e factors = true ↔
      ((e.electrons ++ e.muons).countP (fun l => decide (l.pt > 25)) = 1 ∧
       4 ≤ (e.jets.zip factors).countP (fun jf => decide (jf.1.pt * jf.2 > 25)) ∧
       ∃ j ∈ selectedJets e factors, j.btagCSVV2 ≥ B_TAG_THRESHOLD)) ∧
    (eventFilters e factors = false →
      routed4j1b e factors = false ∧ routed4j2b e factors = false) := by
  have hel : (selectedElectrons e).length
      = e.electrons.countP (fun l => decide (l.pt > 25)) :=
    (List.countP_eq_length_filter _ _).symm
  have hmu : (selectedMuons e).length
      = e.muons.countP (fun l => decide (l.pt > 25)) :=
    (List.countP_eq_length_filter _ _).symm
  have hjet : (selectedJets e factors).length
      = (e.jets.zip factors).countP (fun jf => decide (jf.1.pt * jf.2 > 25)) := by
    simp only [selectedJets, List.length_map]
    exact (List.countP_eq_length_filter _ _).symm
  constructor
  · simp only [eventFilters, Bool.and_eq_true, beq_iff_eq, decide_eq_true_eq]
    rw [hel, hmu, hjet, ← List.countP_append]
    constructor
    · rintro ⟨⟨h1, h2⟩, h3⟩
      refine ⟨h1, h2, ?_⟩
      have hpos : 0 < (selectedJets e factors).countP
          (fun j => decide (j.btagCSVV2 ≥ B_TAG_THRESHOLD)) := by omega
      have := List.countP_pos_iff.mp hpos
      simpa using this
    · rintro ⟨h1, h2, h3⟩
      refine ⟨⟨h1, h2⟩, ?_⟩
      have hpos : 0 < (selectedJets e factors).countP
          (fun j => decide (j.btagCSVV2 ≥ B_TAG_THRESHOLD)) :=
        List.countP_pos_iff.mpr (by simpa using h3)
      omega
  · intro hf
    constructor <;> simp [routed4j1b, routed4j2b, hf]

/-- Witness for C2 at a concrete empty event, which fails the selection and
is excluded from both regions. -/
theorem claim_C2_selection_mask_witness :
    eventFilters ⟨[], [], [], 0⟩ [] = false ∧
    (routed4j1b ⟨[], [], [], 0⟩ [] = false ∧
     routed4j2b ⟨[], [], [], 0⟩ [] = false) :=
  ⟨by decide, (claim_C2_selection_mask ⟨[], [], [], 0⟩ []).2 (by decide)⟩

/-- C3: For every input, `get_features` returns a matrix with exactly
`sum(perm_counts)` rows and 28 columns, one row per (event, permutation) pair
in flattened (event, permutation) enumeration order, together with the
parallel per-event permutation-count array (one entry per event).  (The
source's `astype(np.float32)` cast is the identity in this exact-rational
embedding.) -/
theorem claim_C3_get_features_shape (ops : NumOps) (events : List Event)
    (pd : PermDict) :
    (get_features ops events pd).1.length = ((get_features ops events pd).2).sum ∧
    (get_features ops events pd).2.length = events.length ∧
    (∀ row ∈ (get_features ops events pd).1, row.length = 28) ∧
    (get_features ops events pd).1 =
      events.flatMap (fun e => (permsFor pd e).map (featureRow ops e.jets (leptonOf e))) := by
  refine ⟨?_, ?_, ?_, rfl⟩
  · simp only [get_features, List.length_flatMap]
    refine congrArg List.sum (List.map_congr_left ?_)
    intro e _
    simp [Function.comp, eventRows]
  · simp [get_features]
  · intro row hrow
    simp only [get_features, List.mem_flatMap, eventRows, List.mem_map] at hrow
    obtain ⟨e, -, p, -, rfl⟩ := hrow
    rfl

/-- C6: For every (event, permutation) row, each of the four delta-phi
features (columns 4 through 7) equals the plain absolute difference of the
two azimuthal angles involved, with no modular wrapping of the difference
into (-π, π]. -/
theorem claim_C6_deltaphi_plain_absdiff (ops : NumOps) (jets : List Particle)
    (lep : Particle) (p : Perm4) :
    (featureRow ops jets lep p).getD 4 0 =
        |lep.phi - (jets.getD p.blep default).phi| ∧
    (featureRow ops jets lep p).getD 5 0 =
        |(jets.getD p.w1 default).phi - (jets.getD p.w2 default).phi| ∧
    (featureRow ops jets lep p).getD 6 0 =
        |(jets.getD p.w1 default).phi - (jets.getD p.bhad default).phi| ∧
    (featureRow ops jets lep p).getD 7 0 =
        |(jets.getD p.w2 default).phi - (jets.getD p.bhad default).phi| :=
  ⟨rfl, rfl, rfl, rfl⟩

/-- C8: the I/O-only routine `only_do_io` raises its fatal error (a
`NotImplementedError` in the source) exactly when the
configured I/O-percentage tier is not one of {2.7, 4, 15, 25, 50}; for every
supported tier it completes and returns the empty histogram result, and this
is the only error site of the fragment. -/
theorem claim_C8_io_error_iff_unsupported (p : ℚ) :
    ((∃ msg, only_do_io p = Except.error msg) ↔ p ∉ supportedIOPercents) ∧
    (p ∈ supportedIOPercents →
      only_do_io p = Except.ok ⟨branchesToRead p, []⟩) := by
  by_cases hp : p ∈ supportedIOPercents <;> simp [only_do_io, hp]

/-- Witness for C8 at the supported tier 4. -/
theorem claim_C8_io_error_iff_unsupported_witness :
    (4 : ℚ) ∈ supportedIOPercents ∧
    only_do_io 4 = Except.ok ⟨branchesToRead 4, []⟩ :=
  ⟨by decide, (claim_C8_io_error_iff_unsupported 4).2 (by decide)⟩

/-- C10: For every event routed to region "4j1b", the ML observable filled
into the histogram equals the kinematic observable (the scalar sum of
selected-jet pT, HT): the two histogram axes receive identical values for
all 4j1b fills. -/
theorem claim_C10_4j1b_ml_equals_ht (jets : List Particle) (factors : List ℚ) :
    (fill4j1b jets factors).ml = (fill4j1b jets factors).obs ∧
    (fill4j1b jets factors).obs =
      ((jets.zip factors).map (fun jf => jf.1.pt * jf.2)).sum :=
  ⟨rfl, rfl⟩

/-- C5: For every event whose jet count exceeds the maximum jet count N of
the permutation table, `get_features` uses the permutation list for jet
count N, so permutation indices are drawn only from the first N jets of that
event; the event is truncated, not rejected, and still contributes rows. -/
theorem claim_C5_high_multiplicity_truncated (N : ℕ) (e : Event)
    (hN : 4 ≤ N) (hj : N < e.jets.length) :
    permsFor (get_permutations_dict N) e = allPerms N ∧
    (∀ p ∈ allPerms N, p.w1 < N ∧ p.w2 < N ∧ p.bhad < N ∧ p.blep < N) ∧
    0 < (permsFor (get_permutations_dict N) e).length := by
  have hperm : permsFor (get_permutations_dict N) e = allPerms N := by
    simp only [permsFor, njetClamped, get_permutations_dict]
    rw [min_eq_right (le_of_lt hj)]
    simp [hN]
  have hbounds : ∀ p ∈ allPerms N,
      p.w1 < N ∧ p.w2 < N ∧ p.bhad < N ∧ p.blep < N := by
    intro p hp
    simp only [allPerms, List.mem_flatMap, List.mem_filterMap,
      List.mem_range] at hp
    obtain ⟨a, ha, b, hb, c, hc, d, hd, hif⟩ := hp
    split at hif
    · cases hif
      exact ⟨ha, hb, hc, hd⟩
    · cases hif
  have hmem : (⟨0, 1, 2, 3⟩ : Perm4) ∈ allPerms N := by
    simp only [allPerms, List.mem_flatMap, List.mem_filterMap, List.mem_range]
    exact ⟨0, by omega, 1, by omega, 2, by omega, 3, by omega, by decide⟩
  exact ⟨hperm, hbounds, hperm ▸ List.length_pos_of_mem hmem⟩

/-- Witness for C5 at the table cap N = 4 and an event with five jets. -/
theorem claim_C5_high_multiplicity_truncated_witness :
    (4 ≤ 4 ∧
     4 < (⟨List.replicate 5 default, [], [], 0⟩ : Event).jets.length) ∧
    (permsFor (get_permutations_dict 4) ⟨List.replicate 5 default, [], [], 0⟩
        = allPerms 4 ∧
     (∀ p ∈ allPerms 4, p.w1 < 4 ∧ p.w2 < 4 ∧ p.bhad < 4 ∧ p.blep < 4) ∧
     0 < (permsFor (get_permutations_dict 4)
        ⟨List.replicate 5 default, [], [], 0⟩).length) :=
  ⟨⟨by decide, by decide⟩,
   claim_C5_high_multiplicity_truncated 4 _ (by decide) (by decide)⟩

/-- C7: For every event with zero qualifying permutations, `get_features`
contributes zero feature rows for that event, the per-event permutation-count
array still holds a 0 at that event's position, and the count array has
exactly one entry per input event, so event alignment is preserved. -/
theorem claim_C7_zero_permutations_alignment (ops : NumOps)
    (events : List Event) (pd : PermDict) (i : ℕ) (hi : i < events.length)
    (h0 : permsFor pd events[i] = []) :
    (get_features ops events pd).2.getD i 1 = 0 ∧
    eventRows ops pd events[i] = [] ∧
    (get_features ops events pd).2.length = events.length ∧
    (get_features ops events pd).1.length =
      ((get_features ops events pd).2).sum := by
  have hrows : eventRows ops pd events[i] = [] := by
    simp [eventRows, h0]
  refine ⟨?_, hrows, by simp [get_features], ?_⟩
  · simp only [get_features, List.getD_eq_getElem?_getD, List.getElem?_map]
    rw [List.getElem?_eq_getElem hi]
    simp [h0]
  · simp only [get_features, List.length_flatMap]
    refine congrArg List.sum (List.map_congr_left ?_)
    intro e _
    simp [Function.comp, eventRows]

/-- Witness for C7 at a one-event batch whose event has no jets, so its
permutation-table lookup is empty. -/
theorem claim_C7_zero_permutations_alignment_witness :
    0 < ([(⟨[], [], [], 0⟩ : Event)]).length ∧
    ((get_features idOps [⟨[], [], [], 0⟩] (get_permutations_dict 6)).2.getD 0 1 = 0 ∧
     eventRows idOps (get_permutations_dict 6)
       ([(⟨[], [], [], 0⟩ : Event)])[0] = [] ∧
     (get_features idOps [⟨[], [], [], 0⟩] (get_permutations_dict 6)).2.length
        = ([(⟨[], [], [], 0⟩ : Event)]).length ∧
     (get_features idOps [⟨[], [], [], 0⟩] (get_permutations_dict 6)).1.length
        = ((get_features idOps [⟨[], [], [], 0⟩] (get_permutations_dict 6)).2).sum) :=
  ⟨by decide,
   claim_C7_zero_permutations_alignment idOps [⟨[], [], [], 0⟩]
     (get_permutations_dict 6) 0 (by decide) (by decide)⟩

/-- C4: For every permutation-scored event, the best-permutation picker
selects the index of the maximum predicted probability among that event's
permutations, breaking ties by picking the first maximal index, and the ML
observable is the value at column 10 (combined mass of the W and
hadronic-top jets) of the feature row at that index; an event with a single
permutation selects that permutation. -/
theorem claim_C4_best_permutation_picker (scores : List ℚ)
    (rows : List (List ℚ)) (hne : scores ≠ []) :
    ∃ i, argmaxIdx scores = some i ∧ i < scores.length ∧
      (∀ j, j < scores.length → scores.getD j 0 ≤ scores.getD i 0) ∧
      (∀ j, j < i → scores.getD j 0 < scores.getD i 0) ∧
      mlObservableOfEvent rows scores = (rows.getD i []).getD 10 0 ∧
      (∀ s : ℚ, argmaxIdx [s] = some 0) ∧
      (∀ (ops : NumOps) (jets : List Particle) (lep : Particle) (p : Perm4),
        (featureRow ops jets lep p).getD 10 0 =
          invMass ops (addP4 (addP4 (toP4 ops (jets.getD p.w1 default))
            (toP4 ops (jets.getD p.w2 default)))
            (toP4 ops (jets.getD p.bhad default)))) := by
  obtain ⟨a, t, rfl⟩ := List.exists_cons_of_ne_nil hne
  have hex : ∃ x ∈ a :: t,
      ((a :: t).all (fun y => decide (y ≤ x))) = true := by
    obtain ⟨m, hm, hmax⟩ := exists_max_of_ne_nil (a :: t) (by simp)
    refine ⟨m, hm, ?_⟩
    rw [List.all_eq_true]
    intro y hy
    simpa using hmax y hy
  have hfound := List.findIdx_lt_length_of_exists hex
  set i := (a :: t).findIdx
    (fun x => (a :: t).all (fun y => decide (y ≤ x))) with hidef
  have hargmax : argmaxIdx (a :: t) = some i := rfl
  have hPi : ∀ y ∈ a :: t, y ≤ (a :: t)[i] := by
    have := List.findIdx_getElem (w := hfound)
    rw [List.all_eq_true] at this
    intro y hy
    simpa using this y hy
  refine ⟨i, hargmax, hfound, ?_, ?_, ?_, fun s => by simp [argmaxIdx, List.findIdx_cons], ?_⟩
  · intro j hj
    rw [List.getD_eq_getElem?_getD, List.getD_eq_getElem?_getD,
      List.getElem?_eq_getElem hj, List.getElem?_eq_getElem hfound]
    exact hPi _ (List.getElem_mem hj)
  · intro j hj
    have hjlen : j < (a :: t).length := lt_trans hj hfound
    have hfalse := List.not_of_lt_findIdx (hidef ▸ hj)
    simp only [List.all_eq_false, decide_eq_true_eq, not_le] at hfalse
    obtain ⟨y, hy, hylt⟩ := hfalse
    rw [List.getD_eq_getElem?_getD, List.getD_eq_getElem?_getD,
      List.getElem?_eq_getElem hjlen, List.getElem?_eq_getElem hfound]
    simp only [Option.getD_some]
    exact lt_of_lt_of_le hylt (hPi y hy)
  · simp [mlObservableOfEvent, hargmax]
  · intro ops jets lep p
    rfl

/-- Witness for C4 at a concrete three-permutation event whose maximum score
is attained at indices 1 and 2 (the picker takes index 1). -/
theorem claim_C4_best_permutation_picker_witness :
    ([(1 : ℚ), 2, 2] ≠ []) ∧
    (∃ i, argmaxIdx [(1 : ℚ), 2, 2] = some i ∧ i < ([(1 : ℚ), 2, 2]).length ∧
      (∀ j, j < ([(1 : ℚ), 2, 2]).length →
        ([(1 : ℚ), 2, 2]).getD j 0 ≤ ([(1 : ℚ), 2, 2]).getD i 0) ∧
      (∀ j, j < i → ([(1 : ℚ), 2, 2]).getD j 0 < ([(1 : ℚ), 2, 2]).getD i 0) ∧
      mlObservableOfEvent [List.replicate 11 (5 : ℚ), List.replicate 11 7,
          List.replicate 11 9] [(1 : ℚ), 2, 2] =
        (([List.replicate 11 (5 : ℚ), List.replicate 11 7,
          List.replicate 11 9]).getD i []).getD 10 0 ∧
      (∀ s : ℚ, argmaxIdx [s] = some 0) ∧
      (∀ (ops : NumOps) (jets : List Particle) (lep : Particle) (p : Perm4),
        (featureRow ops jets lep p).getD 10 0 =
          invMass ops (addP4 (addP4 (toP4 ops (jets.getD p.w1 default))
            (toP4 ops (jets.getD p.w2 default)))
            (toP4 ops (jets.getD p.bhad default))))) :=
  ⟨by simp,
   claim_C4_best_permutation_picker [(1 : ℚ), 2, 2]
     [List.replicate 11 (5 : ℚ), List.replicate 11 7, List.replicate 11 9]
     (by simp)⟩

/-- C9: For every batch, each feature row is scored by exactly one of the two
classifier models, selected by the parity of its event's event number: the
per-row mask repeats each region event's `event % 2 == 0` bit across its
permutation block, the masked and negated-masked row sets partition all rows,
and the results array is fully populated, every entry receiving exactly the
value of the model matching its row's parity bit. -/
theorem claim_C9_parity_model_routing (eventsR : List Event) (counts : List ℕ)
    (rows : List (List ℚ)) (scoreEven scoreOdd : List (List ℚ) → List ℚ)
    (hev : eventsR.length = counts.length)
    (hrows : rows.length = counts.sum) :
    (evenPerm (eventsR.map evenOf) counts).length = rows.length ∧
    (∀ e, (he : e < eventsR.length) → ∀ k, k < counts.getD e 0 →
      (evenPerm (eventsR.map evenOf) counts).getD
          ((counts.take e).sum + k) false = evenOf eventsR[e]) ∧
    (bdtResults (evenPerm (eventsR.map evenOf) counts) rows
      scoreEven scoreOdd).length = rows.length ∧
    (selectMask (evenPerm (eventsR.map evenOf) counts) rows).length +
      (selectMask ((evenPerm (eventsR.map evenOf) counts).map not) rows).length =
        rows.length ∧
    (∀ i, i < (evenPerm (eventsR.map evenOf) counts).length →
      (bdtResults (evenPerm (eventsR.map evenOf) counts) rows
          scoreEven scoreOdd).getD i 0 =
        (if (evenPerm (eventsR.map evenOf) counts).getD i false then
          (scoreEven (selectMask (evenPerm (eventsR.map evenOf) counts) rows)).getD
            (((evenPerm (eventsR.map evenOf) counts).take i).countP id) 0
         else
          (scoreOdd (selectMask
              ((evenPerm (eventsR.map evenOf) counts).map not) rows)).getD
            (((evenPerm (eventsR.map evenOf) counts).take i).countP
              (fun b => !b)) 0)) := by
  have hev' : (eventsR.map evenOf).length = counts.length := by
    simpa using hev
  have hlen : (evenPerm (eventsR.map evenOf) counts).length = rows.length := by
    rw [evenPerm_length _ counts hev', hrows]
  refine ⟨hlen, ?_, ?_, selectMask_partition_length _ _ hlen, ?_⟩
  · intro e he k hk
    rw [evenPerm_getD_block (eventsR.map evenOf) counts hev' e k
      (hev ▸ he) hk]
    rw [List.getD_eq_getElem?_getD, List.getElem?_map,
      List.getElem?_eq_getElem he]
    simp
  · simp [bdtResults, scatterAssign_length, hlen]
  · intro i hi
    simp only [bdtResults]
    exact scatterAssign_getD _ _ _ i hi

/-- Witness for C9 at a two-event batch (event number 2 with one row, event
number 3 with two rows) and constant scoring functions. -/
theorem claim_C9_parity_model_routing_witness :
    (([(⟨[], [], [], 2⟩ : Event), ⟨[], [], [], 3⟩]).length =
       ([1, 2] : List ℕ).length ∧
     ([[(1 : ℚ)], [2], [3]] : List (List ℚ)).length = ([1, 2] : List ℕ).sum) ∧
    ((evenPerm (([(⟨[], [], [], 2⟩ : Event), ⟨[], [], [], 3⟩]).map evenOf)
        [1, 2]).length = ([[(1 : ℚ)], [2], [3]]).length ∧
     (∀ e, (he : e < ([(⟨[], [], [], 2⟩ : Event), ⟨[], [], [], 3⟩]).length) →
       ∀ k, k < ([1, 2] : List ℕ).getD e 0 →
       (evenPerm (([(⟨[], [], [], 2⟩ : Event), ⟨[], [], [], 3⟩]).map evenOf)
           [1, 2]).getD ((([1, 2] : List ℕ).take e).sum + k) false =
         evenOf ([(⟨[], [], [], 2⟩ : Event), ⟨[], [], [], 3⟩])[e]) ∧
     (bdtResults
         (evenPerm (([(⟨[], [], [], 2⟩ : Event), ⟨[], [], [], 3⟩]).map evenOf)
           [1, 2]) [[(1 : ℚ)], [2], [3]]
         (fun m => m.map (fun _ => 10)) (fun m => m.map (fun _ => 20))).length =
       ([[(1 : ℚ)], [2], [3]]).length ∧
     (selectMask
         (evenPerm (([(⟨[], [], [], 2⟩ : Event), ⟨[], [], [], 3⟩]).map evenOf)
           [1, 2]) [[(1 : ℚ)], [2], [3]]).length +
       (selectMask
         ((evenPerm (([(⟨[], [], [], 2⟩ : Event), ⟨[], [], [], 3⟩]).map evenOf)
           [1, 2]).map not) [[(1 : ℚ)], [2], [3]]).length =
         ([[(1 : ℚ)], [2], [3]]).length ∧
     (∀ i, i < (evenPerm
         (([(⟨[], [], [], 2⟩ : Event), ⟨[], [], [], 3⟩]).map evenOf)
           [1, 2]).length →
       (bdtResults
           (evenPerm (([(⟨[], [], [], 2⟩ : Event), ⟨[], [], [], 3⟩]).map evenOf)
             [1, 2]) [[(1 : ℚ)], [2], [3]]
           (fun m => m.map (fun _ => 10)) (fun m => m.map (fun _ => 20))).getD i 0 =
         (if (evenPerm
             (([(⟨[], [], [], 2⟩ : Event), ⟨[], [], [], 3⟩]).map evenOf)
               [1, 2]).getD i false then
           ((fun (m : List (List ℚ)) => m.map (fun _ => (10 : ℚ)))
               (selectMask
                 (evenPerm
                   (([(⟨[], [], [], 2⟩ : Event), ⟨[], [], [], 3⟩]).map evenOf)
                   [1, 2]) [[(1 : ℚ)], [2], [3]])).getD
             (((evenPerm (([(⟨[], [], [], 2⟩ : Event), ⟨[], [], [], 3⟩]).map evenOf)
                 [1, 2]).take i).countP id) 0
          else
           ((fun (m : List (List ℚ)) => m.map (fun _ => (20 : ℚ)))
               (selectMask
                 ((evenPerm
                   (([(⟨[], [], [], 2⟩ : Event), ⟨[], [], [], 3⟩]).map evenOf)
                   [1, 2]).map not) [[(1 : ℚ)], [2], [3]])).getD
             (((evenPerm (([(⟨[], [], [], 2⟩ : Event), ⟨[], [], [], 3⟩]).map evenOf)
                 [1, 2]).take i).countP (fun b => !b)) 0))) :=
  ⟨⟨by decide, by decide⟩,
   claim_C9_parity_model_routing [⟨[], [], [], 2⟩, ⟨[], [], [], 3⟩] [1, 2]
     [[(1 : ℚ)], [2], [3]]
     (fun m => m.map (fun _ => 10)) (fun m => m.map (fun _ => 20))
     (by decide) (by decide)⟩

/-- Witness for C3 at a concrete one-event batch. -/
theorem claim_C3_get_features_shape_witness :
    (get_features idOps [⟨[], [], [⟨30, 0, 0, 0, 0, 0⟩], 2⟩]
        (get_permutations_dict 6)).1.length =
      ((get_features idOps [⟨[], [], [⟨30, 0, 0, 0, 0, 0⟩], 2⟩]
        (get_permutations_dict 6)).2).sum ∧
    (get_features idOps [⟨[], [], [⟨30, 0, 0, 0, 0, 0⟩], 2⟩]
        (get_permutations_dict 6)).2.length =
      ([(⟨[], [], [⟨30, 0, 0, 0, 0, 0⟩], 2⟩ : Event)]).length ∧
    (∀ row ∈ (get_features idOps [⟨[], [], [⟨30, 0, 0, 0, 0, 0⟩], 2⟩]
        (get_permutations_dict 6)).1, row.length = 28) ∧
    (get_features idOps [⟨[], [], [⟨30, 0, 0, 0, 0, 0⟩], 2⟩]
        (get_permutations_dict 6)).1 =
      ([(⟨[], [], [⟨30, 0, 0, 0, 0, 0⟩], 2⟩ : Event)]).flatMap
        (fun e => (permsFor (get_permutations_dict 6) e).map
          (featureRow idOps e.jets (leptonOf e))) :=
  claim_C3_get_features_shape idOps [⟨[], [], [⟨30, 0, 0, 0, 0, 0⟩], 2⟩]
    (get_permutations_dict 6)

/-- Witness for C6 at a concrete jet list, lepton and permutation. -/
theorem claim_C6_deltaphi_plain_absdiff_witness :
    (featureRow idOps [⟨40, 1, 2, 5, 1, 0⟩] ⟨30, 0, 3, 0, 0, 0⟩ ⟨0, 0, 0, 0⟩).getD 4 0 =
        |(⟨30, 0, 3, 0, 0, 0⟩ : Particle).phi -
          (([(⟨40, 1, 2, 5, 1, 0⟩ : Particle)]).getD 0 default).phi| ∧
    (featureRow idOps [⟨40, 1, 2, 5, 1, 0⟩] ⟨30, 0, 3, 0, 0, 0⟩ ⟨0, 0, 0, 0⟩).getD 5 0 =
        |(([(⟨40, 1, 2, 5, 1, 0⟩ : Particle)]).getD 0 default).phi -
          (([(⟨40, 1, 2, 5, 1, 0⟩ : Particle)]).getD 0 default).phi| ∧
    (featureRow idOps [⟨40, 1, 2, 5, 1, 0⟩] ⟨30, 0, 3, 0, 0, 0⟩ ⟨0, 0, 0, 0⟩).getD 6 0 =
        |(([(⟨40, 1, 2, 5, 1, 0⟩ : Particle)]).getD 0 default).phi -
          (([(⟨40, 1, 2, 5, 1, 0⟩ : Particle)]).getD 0 default).phi| ∧
    (featureRow idOps [⟨40, 1, 2, 5, 1, 0⟩] ⟨30, 0, 3, 0, 0, 0⟩ ⟨0, 0, 0, 0⟩).getD 7 0 =
        |(([(⟨40, 1, 2, 5, 1, 0⟩ : Particle)]).getD 0 default).phi -
          (([(⟨40, 1, 2, 5, 1, 0⟩ : Particle)]).getD 0 default).phi| :=
  claim_C6_deltaphi_plain_absdiff idOps [⟨40, 1, 2, 5, 1, 0⟩]
    ⟨30, 0, 3, 0, 0, 0⟩ ⟨0, 0, 0, 0⟩

/-- Witness for C10 at a concrete two-jet region. -/
theorem claim_C10_4j1b_ml_equals_ht_witness :
    (fill4j1b [⟨40, 0, 0, 0, 1, 0⟩, ⟨50, 0, 0, 0, 0, 0⟩] [1, 1]).ml =
      (fill4j1b [⟨40, 0, 0, 0, 1, 0⟩, ⟨50, 0, 0, 0, 0, 0⟩] [1, 1]).obs ∧
    (fill4j1b [⟨40, 0, 0, 0, 1, 0⟩, ⟨50, 0, 0, 0, 0, 0⟩] [1, 1]).obs =
      ((([(⟨40, 0, 0, 0, 1, 0⟩ : Particle), ⟨50, 0, 0, 0, 0, 0⟩]).zip
        ([1, 1] : List ℚ)).map (fun jf => jf.1.pt * jf.2)).sum :=
  claim_C10_4j1b_ml_equals_ht [⟨40, 0, 0, 0, 1, 0⟩, ⟨50, 0, 0, 0, 0, 0⟩] [1, 1]
